import Mathlib

/-!
Shallow embedding of the core analytics of the repository.

Sources embedded:
* `src/core/analysis/ev_calculator.py` — odds conversions, expected value,
  Kelly sizing, positive-EV scan, arbitrage scan;
* `src/core/processing/data_processor.py` — cleaning (`clean_data`) and
  per-team aggregation (`aggregate_team_stats`).

Modelling conventions:
* Python real arithmetic is modelled over `ℚ` (the formulas of the source
  are exact rational formulas);
* a Python `ZeroDivisionError` is modelled with `Option`: a function that can
  raise returns `none` exactly where the source raises, and a source-level
  `try/except` that converts an exception into a default value is modelled by
  matching on that `Option`;
* Python `int()` truncation toward zero is modelled by `ratTrunc`;
* dictionaries are modelled as association lists in insertion order
  (CPython dictionaries preserve insertion order);
* `datetime` timestamps attached to result records by the source
  (`"timestamp": datetime.now()`) are ambient environment state and are left
  out of the embedded result records.
-/

/-- Truncation toward zero: the behaviour of Python's `int()` on a number. -/
def ratTrunc (q : ℚ) : Int :=
  if 0 ≤ q.num then ((q.num.toNat / q.den : Nat) : Int)
  else -(((-q.num).toNat / q.den : Nat) : Int)

/-- `EVCalculator.american_to_decimal` (ev_calculator.py:23-36).
`none` models the `ZeroDivisionError` of `100 / abs(0)` when the odds are 0
(the source checks `american_odds > 0` first and divides in the `else`). -/
def american_to_decimal (a : Int) : Option ℚ :=
  if 0 < a then some ((a : ℚ) / 100 + 1)
  else if a = 0 then none
  else some (100 / |(a : ℚ)| + 1)

/-- `EVCalculator.decimal_to_american` (ev_calculator.py:38-51).
`none` models the `ZeroDivisionError` of `-100 / (d - 1)` at `d = 1`. -/
def decimal_to_american (d : ℚ) : Option Int :=
  if 2 ≤ d then some (ratTrunc ((d - 1) * 100))
  else if d = 1 then none
  else some (ratTrunc (-100 / (d - 1)))

/-- The composition `decimal_to_american ∘ american_to_decimal` used by the
round-trip property of the spec (§8). -/
def round_trip_american (a : Int) : Option Int :=
  (american_to_decimal a).bind decimal_to_american

/-- `EVCalculator.implied_probability` (ev_calculator.py:53-64): no
`try/except` of its own, so a zero-odds failure propagates to the caller. -/
def implied_probability (a : Int) : Option ℚ :=
  (american_to_decimal a).map (fun d => 1 / d)

/-- `EVCalculator.calculate_expected_value` (ev_calculator.py:66-98).
The `except` branch of the source returns `0.0`, modelled by the `none` arm. -/
def calculate_expected_value (p : ℚ) (odds : Int) (bet_amount : ℚ) : ℚ :=
  match american_to_decimal odds with
  | none => 0
  | some d => p * (bet_amount * (d - 1)) - (1 - p) * bet_amount

/-- `EVCalculator.calculate_ev_percentage` (ev_calculator.py:100-116):
the expected value of a $100 bet. -/
def calculate_ev_percentage (p : ℚ) (odds : Int) : ℚ :=
  calculate_expected_value p odds 100

/-- `EVCalculator.calculate_kelly_criterion` (ev_calculator.py:213-252).
`b = decimal_odds - 1`, `kelly_fraction = (b * p - (1 - p)) / b`, then
`min · 0.25` followed by `max · 0`; the `except` branch returns `0.0`. -/
def calculate_kelly_criterion (p : ℚ) (odds : Int) (bankroll : ℚ) : ℚ :=
  match american_to_decimal odds with
  | none => 0
  | some d => bankroll * max (min (((d - 1) * p - (1 - p)) / (d - 1)) (1 / 4)) 0

/-- One row of the normalized game table of `data_processor.py`.  Fields that
pandas can hold as missing (`NaN`/`NaT`) and that `clean_data` tests with
`dropna` are modelled as `Option`; scores are integers after normalisation
(`_normalize_single_game` always writes `int` scores).  `home_team_result` is
the derived column written by `_add_derived_features` (data_processor.py:226). -/
structure GameRecord where
  game_id : String
  home_team : Option String
  away_team : Option String
  date : Option String
  home_score : Int
  away_score : Int
  home_team_result : Option String
deriving DecidableEq, Repr

/-- The row predicate kept by `clean_data` (data_processor.py:290-293):
`dropna(subset=["home_team", "away_team", "date"])` followed by
`(home_score >= 0) & (away_score >= 0)`; both passes preserve order, so they
are embedded as one conjunction. -/
def validRow (r : GameRecord) : Bool :=
  r.home_team.isSome && r.away_team.isSome && r.date.isSome &&
    decide (0 ≤ r.home_score) && decide (0 ≤ r.away_score)

/-- `df.drop_duplicates(subset=["game_id"], keep="first")`
(data_processor.py:287): keep a row exactly when its `game_id` has not been
seen earlier. -/
def dropDuplicatesByGameId (seen : List String) : List GameRecord → List GameRecord
  | [] => []
  | r :: rs =>
    if r.game_id ∈ seen then dropDuplicatesByGameId seen rs
    else r :: dropDuplicatesByGameId (r.game_id :: seen) rs

/-- `DataProcessor.clean_data` (data_processor.py:273-310): deduplicate by
`game_id` keeping first, then drop invalid rows.  The type coercions
(`pd.to_datetime`, `astype(int)`) are identities in this typed model: the rows
reaching `clean_data` come from the normalizer, whose dates are already
parsed `datetime` values and whose scores are already `int`, so the
`except` branch returning the uncleaned frame is unreachable here. -/
def clean_data (l : List GameRecord) : List GameRecord :=
  (dropDuplicatesByGameId [] l).filter validRow

/-- Number of records of `l` that share a `game_id` with an earlier record:
length minus the number of distinct ids. -/
def numDuplicates (l : List GameRecord) : Nat :=
  l.length - (l.map GameRecord.game_id).toFinset.card

/-- The aggregate returned by `DataProcessor.aggregate_team_stats`
(data_processor.py:312-381). -/
structure TeamStatsSummary where
  team_name : String
  total_games : Nat
  wins : Nat
  losses : Nat
  win_percentage : ℚ
  home_games : Nat
  away_games : Nat
  avg_points_scored : ℚ
  avg_points_allowed : ℚ
  total_points_scored : Int
  total_points_allowed : Int
  point_differential : Int
deriving DecidableEq, Repr

/-- Games the team took part in (data_processor.py:325-327). -/
def team_games (l : List GameRecord) (team : String) : List GameRecord :=
  l.filter (fun r => decide (r.home_team = some team) || decide (r.away_team = some team))

/-- Win condition of the source (data_processor.py:340-343): home win as the
home team, or home loss as the away team. -/
def winRow (team : String) (r : GameRecord) : Bool :=
  (decide (r.home_team = some team) && decide (r.home_team_result = some "Win")) ||
    (decide (r.away_team = some team) && decide (r.home_team_result = some "Loss"))

/-- Loss condition of the source (data_processor.py:345-348). -/
def lossRow (team : String) (r : GameRecord) : Bool :=
  (decide (r.home_team = some team) && decide (r.home_team_result = some "Loss")) ||
    (decide (r.away_team = some team) && decide (r.home_team_result = some "Win"))

/-- Points scored by the team in each of its games (data_processor.py:354-360). -/
def teamScores (l : List GameRecord) (team : String) : List Int :=
  (team_games l team).map (fun r => if r.home_team = some team then r.home_score else r.away_score)

/-- Points scored against the team in each of its games. -/
def oppScores (l : List GameRecord) (team : String) : List Int :=
  (team_games l team).map (fun r => if r.home_team = some team then r.away_score else r.home_score)

/-- `DataProcessor.aggregate_team_stats` (data_processor.py:312-381); the
empty dictionary returned when the team has no games is modelled as `none`.
`np.mean` is sum divided by length (the lists are nonempty in this branch). -/
def aggregate_team_stats (l : List GameRecord) (team : String) : Option TeamStatsSummary :=
  if (team_games l team).isEmpty then none
  else
    some {
      team_name := team
      total_games := (team_games l team).length
      wins := ((team_games l team).filter (winRow team)).length
      losses := ((team_games l team).filter (lossRow team)).length
      win_percentage :=
        (((team_games l team).filter (winRow team)).length : ℚ) / ((team_games l team).length : ℚ)
      home_games := ((team_games l team).filter (fun r => decide (r.home_team = some team))).length
      away_games := ((team_games l team).filter (fun r => decide (r.away_team = some team))).length
      avg_points_scored := ((teamScores l team).sum : ℚ) / ((teamScores l team).length : ℚ)
      avg_points_allowed := ((oppScores l team).sum : ℚ) / ((oppScores l team).length : ℚ)
      total_points_scored := (teamScores l team).sum
      total_points_allowed := (oppScores l team).sum
      point_differential := (teamScores l team).sum - (oppScores l team).sum }

/-- A record whose `game_id` duplicates the one below but which is itself
invalid (missing home team): used against C8 as stated. -/
def exDupFirstInvalid : GameRecord :=
  { game_id := "g", home_team := none, away_team := some "A",
    date := some "2024-01-01", home_score := 1, away_score := 0,
    home_team_result := some "Win" }

/-- A valid record sharing `game_id` with `exDupFirstInvalid`. -/
def exDupSecondValid : GameRecord :=
  { game_id := "g", home_team := some "H", away_team := some "A",
    date := some "2024-01-01", home_score := 1, away_score := 0,
    home_team_result := some "Win" }

/-- A second valid record with the same `game_id` as `exDupSecondValid`,
for the witness of the amended C8. -/
def exDupThirdValid : GameRecord :=
  { game_id := "g", home_team := some "H", away_team := some "A",
    date := some "2024-01-02", home_score := 0, away_score := 2,
    home_team_result := some "Loss" }

/-- A completed game used by the C6 witness: home team "H" beat away team "A". -/
def exHomeWinGame : GameRecord :=
  { game_id := "w1", home_team := some "H", away_team := some "A",
    date := some "2024-01-01", home_score := 3, away_score := 1,
    home_team_result := some "Win" }

/-- One priced outcome of a head-to-head market (`name`/`price` keys of the
odds payload, §6 of the spec). -/
structure Outcome where
  name : String
  price : Int
deriving DecidableEq, Repr

/-- One market of a bookmaker (`key`/`outcomes`). -/
structure Market where
  key : String
  outcomes : List Outcome
deriving DecidableEq, Repr

/-- One bookmaker block of an odds entry (`title`/`markets`). -/
structure Bookmaker where
  title : String
  markets : List Market
deriving DecidableEq, Repr

/-- One odds payload keyed by game id (`id`/`bookmakers`). -/
structure OddsEntry where
  id : String
  bookmakers : List Bookmaker
deriving DecidableEq, Repr

/-- A prediction record (§6: at minimum `home_team`, `away_team`,
`home_win_probability`, `away_win_probability`); `extra` holds the remaining
numeric fields of the dictionary in insertion order, scanned by the
substring fallback of `_get_team_probability`. -/
structure Prediction where
  home_team : String
  away_team : String
  home_win_probability : ℚ
  away_win_probability : ℚ
  extra : List (String × ℚ)
deriving DecidableEq, Repr

/-- Dictionary items iterated by the fallback of `_get_team_probability`
(ev_calculator.py:207-209).  The string-valued keys `home_team`/`away_team`
can never satisfy the fallback condition (their key names do not contain
"probability"), so only the numeric items are listed. -/
def pred_items (pr : Prediction) : List (String × ℚ) :=
  ("home_win_probability", pr.home_win_probability) ::
    ("away_win_probability", pr.away_win_probability) :: pr.extra

/-- Python dictionary membership + subscript for the predictions map. -/
def lookupPred (g : String) : List (String × Prediction) → Option Prediction
  | [] => none
  | (k, v) :: rest => if k = g then some v else lookupPred g rest

/-- Characters of a string lowercased: Python's `str.lower()`. -/
def lowerChars (s : String) : List Char := s.data.map Char.toLower

/-- Whether the first list is an initial segment of the second. -/
def seqStarts : List Char → List Char → Bool
  | [], _ => true
  | _ :: _, [] => false
  | a :: as, b :: bs => a == b && seqStarts as bs

/-- Whether `needle` occurs contiguously inside the second list:
Python's `needle in hay` on strings. -/
def seqContains (needle : List Char) : List Char → Bool
  | [] => seqStarts needle []
  | b :: bs => seqStarts needle (b :: bs) || seqContains needle bs

/-- `needle.lower() in hay.lower()` of the source. -/
def strContainsLower (needle hay : String) : Bool :=
  seqContains (lowerChars needle) (lowerChars hay)

/-- `EVCalculator._get_team_probability` (ev_calculator.py:189-211): exact
match on home/away team, then the permissive substring fallback over the
dictionary items, else 0. -/
def get_team_probability (pr : Prediction) (team : String) : ℚ :=
  if pr.home_team = team then pr.home_win_probability
  else if pr.away_team = team then pr.away_win_probability
  else
    match (pred_items pr).find? (fun kv =>
        strContainsLower team kv.1 && strContainsLower "probability" kv.1) with
    | some kv => kv.2
    | none => 0

/-- One positive-EV result record (ev_calculator.py:168-177); the
`datetime.now()` timestamp is left out (ambient state). -/
structure EVOpportunity where
  game_id : String
  bookmaker : String
  team : String
  odds : Int
  predicted_probability : ℚ
  expected_value : ℚ
  market : String
deriving DecidableEq, Repr

/-- The collection loop of `EVCalculator.find_positive_ev_bets`
(ev_calculator.py:137-177), in encounter order, before sorting: skip games
without a prediction, keep head-to-head markets only, keep outcomes with a
positive predicted probability and EV% at least `min_ev`. -/
def collect_positive_ev (predictions : List (String × Prediction))
    (odds_data : List OddsEntry) (min_ev : ℚ) : List EVOpportunity :=
  odds_data.flatMap (fun entry =>
    match lookupPred entry.id predictions with
    | none => []
    | some pr =>
      entry.bookmakers.flatMap (fun bk =>
        bk.markets.flatMap (fun mk =>
          if mk.key = "h2h" then
            mk.outcomes.filterMap (fun oc =>
              let p := get_team_probability pr oc.name
              if 0 < p then
                let ev := calculate_ev_percentage p oc.price
                if min_ev ≤ ev then
                  some { game_id := entry.id, bookmaker := bk.title,
                         team := oc.name, odds := oc.price,
                         predicted_probability := p, expected_value := ev,
                         market := "moneyline" }
                else none
              else none)
          else [])))

/-- The comparison of `positive_ev_bets.sort(key=..., reverse=True)`:
descending by expected value. -/
def evSortLE (a b : EVOpportunity) : Bool :=
  decide (b.expected_value ≤ a.expected_value)

/-- `EVCalculator.find_positive_ev_bets` (ev_calculator.py:118-187):
collect then sort; Python's `list.sort` is a stable merge sort, and with
`reverse=True` equal keys still keep their original order. -/
def find_positive_ev_bets (predictions : List (String × Prediction))
    (odds_data : List OddsEntry) (min_ev : ℚ) : List EVOpportunity :=
  (collect_positive_ev predictions odds_data min_ev).mergeSort evSortLE

/-- Prediction of the spec's positive-EV scenario: home team "H" wins with
probability 0.60. -/
def exPredG1 : Prediction :=
  { home_team := "H", away_team := "A", home_win_probability := 3/5,
    away_win_probability := 2/5, extra := [] }

/-- A second prediction producing a smaller positive EV (0.55 at -110). -/
def exPredG2 : Prediction :=
  { home_team := "K", away_team := "B", home_win_probability := 11/20,
    away_win_probability := 9/20, extra := [] }

def exPreds : List (String × Prediction) := [("g1", exPredG1), ("g2", exPredG2)]

def exOddsEntries : List OddsEntry :=
  [{ id := "g1",
     bookmakers := [{ title := "Book1",
                      markets := [{ key := "h2h",
                                    outcomes := [{ name := "H", price := -110 },
                                                 { name := "A", price := -110 }] }] }] },
   { id := "g2",
     bookmakers := [{ title := "Book2",
                      markets := [{ key := "h2h",
                                    outcomes := [{ name := "K", price := -110 }] }] }] }]

/-- The spec-scenario opportunity: 0.60 against -110 has EV% = 160/11 ≈ 14.5. -/
def exOppH : EVOpportunity :=
  { game_id := "g1", bookmaker := "Book1", team := "H", odds := -110,
    predicted_probability := 3/5, expected_value := 160/11, market := "moneyline" }

/-- The lower-EV opportunity of the same scenario: 0.55 against -110, EV% = 5. -/
def exOppK : EVOpportunity :=
  { game_id := "g2", bookmaker := "Book2", team := "K", odds := -110,
    predicted_probability := 11/20, expected_value := 5, market := "moneyline" }

/-- All head-to-head quotes of a game's entries as (team, bookmaker, price)
triples, in the iteration order of the nested loops of
`_check_arbitrage_for_game` (ev_calculator.py:310-326). -/
def quotesTriples (game_odds : List OddsEntry) : List (String × String × Int) :=
  game_odds.flatMap (fun e =>
    e.bookmakers.flatMap (fun bk =>
      bk.markets.flatMap (fun mk =>
        if mk.key = "h2h" then
          mk.outcomes.map (fun oc => (oc.name, bk.title, oc.price))
        else [])))

/-- One update of the `best_odds` dictionary (ev_calculator.py:325-326):
`if team not in best_odds or odds > best_odds[team][1]` — replace the value in
place when the key exists and the new odds are strictly greater, append a new
key at the end otherwise. -/
def upsertMax : List (String × String × Int) → String → String → Int →
    List (String × String × Int)
  | [], t, bk, o => [(t, bk, o)]
  | e :: rest, t, bk, o =>
    if e.1 = t then (if e.2.2 < o then (t, bk, o) :: rest else e :: rest)
    else e :: upsertMax rest t bk o

/-- The `best_odds` dictionary built by folding over all quotes in encounter
order. -/
def bestOddsFold (acc : List (String × String × Int)) :
    List (String × String × Int) → List (String × String × Int)
  | [] => acc
  | (t, bk, o) :: rest => bestOddsFold (upsertMax acc t bk o) rest

/-- Best (maximum) American odds per distinct outcome name across all
bookmakers of a game. -/
def best_odds (game_odds : List OddsEntry) : List (String × String × Int) :=
  bestOddsFold [] (quotesTriples game_odds)

/-- Sum of implied probabilities of the best-odds set
(ev_calculator.py:330-335).  `none` models the `ZeroDivisionError` raised by
`implied_probability` on a zero best price: the source's `except` then turns
the whole game's check into `None`. -/
def impliedSum : List (String × String × Int) → Option ℚ
  | [] => some 0
  | e :: rest =>
    match implied_probability e.2.2, impliedSum rest with
    | some p, some s => some (p + s)
    | _, _ => none

/-- One arbitrage result record (ev_calculator.py:341-347); the
`datetime.now()` timestamp is left out (ambient state). -/
structure ArbitrageOpportunity where
  game_id : String
  profit_margin : ℚ
  total_implied_probability : ℚ
  best_odds_set : List (String × String × Int)
deriving DecidableEq, Repr

/-- `EVCalculator._check_arbitrage_for_game` (ev_calculator.py:291-353):
needs at least two distinct priced outcomes, emits only when the total
implied probability is strictly below 1. -/
def check_arbitrage_for_game (game_id : String) (game_odds : List OddsEntry) :
    Option ArbitrageOpportunity :=
  if 2 ≤ (best_odds game_odds).length then
    match impliedSum (best_odds game_odds) with
    | none => none
    | some total =>
      if total < 1 then
        some { game_id := game_id, profit_margin := (1 - total) * 100,
               total_implied_probability := total,
               best_odds_set := best_odds game_odds }
      else none
  else none

/-- First-occurrence order of a list of keys: the key order of a Python
dictionary filled in a loop. -/
def dedupKeys (seen : List String) : List String → List String
  | [] => []
  | x :: xs => if x ∈ seen then dedupKeys seen xs else x :: dedupKeys (x :: seen) xs

/-- The group of entries a games dictionary holds for id `g`: all entries with
that id, in encounter order. -/
def game_quotes (odds_data : List OddsEntry) (g : String) : List OddsEntry :=
  odds_data.filter (fun e => decide (e.id = g))

/-- The ids of the games dictionary, in first-occurrence order. -/
def game_ids (odds_data : List OddsEntry) : List String :=
  dedupKeys [] (odds_data.map OddsEntry.id)

/-- `EVCalculator.calculate_arbitrage_opportunities` (ev_calculator.py:254-289):
group by game id (ev_calculator.py:270-277, dictionary semantics expressed
extensionally: keys in first-occurrence order, each group in encounter order)
and check each game.  The outer `except` of the source cannot fire because
`_check_arbitrage_for_game` catches its own exceptions. -/
def calculate_arbitrage_opportunities (odds_data : List OddsEntry) :
    List ArbitrageOpportunity :=
  (game_ids odds_data).filterMap
    (fun g => check_arbitrage_for_game g (game_quotes odds_data g))

/-- First triple with the given team key, mirroring dictionary access into
the association-list `best_odds`. -/
def lookupBest (t : String) :
    List (String × String × Int) → Option (String × String × Int)
  | [] => none
  | e :: rest => if e.1 = t then some e else lookupBest t rest

/-- All prices quoted for outcome name `t` in a triple list, in order. -/
def pricesFor (t : String) (ts : List (String × String × Int)) : List Int :=
  (ts.filter (fun e => decide (e.1 = t))).map (fun e => e.2.2)

/-- The strictly-greater-wins accumulation of one price into the current best. -/
def maxStep (cur : Option Int) (p : Int) : Option Int :=
  some (match cur with | none => p | some c => if c < p then p else c)

/-- The best odds recorded for team `t`. -/
def oddsAt (t : String) (l : List (String × String × Int)) : Option Int :=
  (lookupBest t l).map (fun e => e.2.2)

/-- Bookmaker 1 of the spec's arbitrage scenario: Team A +150 / Team B +130. -/
def exArbEntry1 : OddsEntry :=
  { id := "m1",
    bookmakers := [{ title := "B1",
                     markets := [{ key := "h2h",
                                   outcomes := [{ name := "Team A", price := 150 },
                                                { name := "Team B", price := 130 }] }] }] }

/-- Bookmaker 2 of the spec's arbitrage scenario: Team A +140 / Team B +150. -/
def exArbEntry2 : OddsEntry :=
  { id := "m1",
    bookmakers := [{ title := "B2",
                     markets := [{ key := "h2h",
                                   outcomes := [{ name := "Team A", price := 140 },
                                                { name := "Team B", price := 150 }] }] }] }

/-- The opportunity the scenario must produce: best odds +150/+150, total
implied probability 0.8, profit margin 20. -/
def exArbOpp : ArbitrageOpportunity :=
  { game_id := "m1", profit_margin := 20, total_implied_probability := 4/5,
    best_odds_set := [("Team A", "B1", 150), ("Team B", "B2", 150)] }

/-- A game whose quotes contain an arbitrage pair (+150/+150) plus one
malformed zero-odds outcome. -/
def exZeroEntry : OddsEntry :=
  { id := "a1",
    bookmakers := [{ title := "B1",
                     markets := [{ key := "h2h",
                                   outcomes := [{ name := "X", price := 150 },
                                                { name := "Y", price := 150 },
                                                { name := "Z", price := 0 }] }] }] }

/-- The same game without the malformed record. -/
def exNoZeroEntry : OddsEntry :=
  { id := "a1",
    bookmakers := [{ title := "B1",
                     markets := [{ key := "h2h",
                                   outcomes := [{ name := "X", price := 150 },
                                                { name := "Y", price := 150 }] }] }] }

/-- The opportunity found once the malformed record is removed. -/
def exNoZeroOpp : ArbitrageOpportunity :=
  { game_id := "a1", profit_margin := 20, total_implied_probability := 4/5,
    best_odds_set := [("X", "B1", 150), ("Y", "B1", 150)] }

/-- An entry for a fresh game id, used to isolate the effect of appending one
(possibly malformed) entry to a batch. -/
def exFreshEntry : OddsEntry := { id := "zz", bookmakers := [] }

/-- C10: for every nonzero American odds `a`, `american_to_decimal a` is
defined and strictly greater than 1, hence `implied_probability a` is defined
and lies strictly between 0 and 1. -/
theorem C10_decimal_gt_one_implied_unit (a : Int) (ha : a ≠ 0) :
    ∃ d, american_to_decimal a = some d ∧ 1 < d ∧
      implied_probability a = some (1 / d) ∧ 0 < 1 / d ∧ 1 / d < 1 := by
  rcases lt_or_gt_of_ne ha with hneg | hpos
  · have habs : (0 : ℚ) < |(a : ℚ)| := by
      rw [abs_pos]
      exact_mod_cast ha
    have hd : (1 : ℚ) < 100 / |(a : ℚ)| + 1 := by
      have : (0 : ℚ) < 100 / |(a : ℚ)| := by positivity
      linarith
    refine ⟨100 / |(a : ℚ)| + 1, ?_, hd, ?_, by positivity, ?_⟩
    · simp [american_to_decimal, not_lt.mpr hneg.le, ha, hneg.not_lt]
    · simp [implied_probability, american_to_decimal, ha, hneg.not_lt]
    · rw [div_lt_one (by linarith)]
      linarith
  · have hd : (1 : ℚ) < (a : ℚ) / 100 + 1 := by
      have : (0 : ℚ) < (a : ℚ) / 100 := by
        have : (0 : ℚ) < (a : ℚ) := by exact_mod_cast hpos
        positivity
      linarith
    refine ⟨(a : ℚ) / 100 + 1, ?_, hd, ?_, by positivity, ?_⟩
    · simp [american_to_decimal, hpos]
    · simp [implied_probability, american_to_decimal, hpos]
    · rw [div_lt_one (by linarith)]
      linarith

theorem C10_witness :
    ((-110 : Int) ≠ 0) ∧
      ∃ d, american_to_decimal (-110) = some d ∧ 1 < d ∧
        implied_probability (-110) = some (1 / d) ∧ 0 < 1 / d ∧ 1 / d < 1 :=
  ⟨by decide, C10_decimal_gt_one_implied_unit (-110) (by decide)⟩

/-- C1 (amended): for every `p`, stake `s` and odds `a` with decimal form `d`,
`calculate_expected_value p a s = p*(s*(d-1)) - (1-p)*s`; the spec's test
vector evaluates to `-50/11 ≈ -4.55` (the spec's stated `≈ -2.38` is off). -/
theorem C1_expected_value_formula (p s : ℚ) (a : Int) (d : ℚ)
    (h : american_to_decimal a = some d) :
    calculate_expected_value p a s = p * (s * (d - 1)) - (1 - p) * s ∧
      calculate_expected_value (1/2) (-110) 100 = -50/11 := by
  constructor
  · unfold calculate_expected_value
    rw [h]
  · norm_num [calculate_expected_value, american_to_decimal]

theorem C1_witness :
    american_to_decimal (-110) = some (21/11) ∧
      calculate_expected_value (3/5) (-110) 100 =
        (3/5) * (100 * ((21/11) - 1)) - (1 - 3/5) * 100 := by
  have h : american_to_decimal (-110) = some (21/11) := by
    norm_num [american_to_decimal]
  exact ⟨h, (C1_expected_value_formula (3/5) 100 (-110) (21/11) h).1⟩

/-- C1 fails as stated: the claimed test vector `≈ -2.38` is wrong; the code
gives `expectedValue(0.5, -110, 100) = -50/11 ≈ -4.5454…`, more than 2 away
from `-2.38`. -/
theorem C1_counterexample :
    calculate_expected_value (1/2) (-110) 100 = -50/11 ∧
      2 < |(-50/11 : ℚ) - (-238/100)| := by
  constructor
  · norm_num [calculate_expected_value, american_to_decimal]
  · rw [abs_sub_comm, abs_of_nonneg (by norm_num)]
    norm_num

/-- Truncation toward zero is the identity on integers. -/
theorem ratTrunc_intCast (n : Int) : ratTrunc (n : ℚ) = n := by
  unfold ratTrunc
  rw [Rat.num_intCast, Rat.den_intCast]
  by_cases h : 0 ≤ n
  · simp [h, Int.toNat_of_nonneg h]
  · have h' : ¬ (0 ≤ n) := h
    simp only [h', if_false, Nat.div_one]
    rw [Int.toNat_of_nonneg (by omega)]
    omega

theorem ratTrunc_eq_of_eq_intCast {q : ℚ} {n : Int} (h : q = (n : ℚ)) :
    ratTrunc q = n := by rw [h, ratTrunc_intCast]

/-- C2 (amended): the round trip `decimal_to_american ∘ american_to_decimal`
reproduces `a` exactly when `a ≥ +100` or `a ≤ -101`; outside that range
(i.e. for `1 ≤ |a| ≤ 99`, and at `a = -100`) the round trip does not stay
within ±1 of `a`. -/
theorem C2_roundtrip_exact (a : Int) (h : 100 ≤ a ∨ a ≤ -101) :
    round_trip_american a = some a := by
  rcases h with h100 | hneg
  · have hpos : 0 < a := by omega
    have hd : american_to_decimal a = some ((a : ℚ) / 100 + 1) := by
      simp [american_to_decimal, hpos]
    have h2 : (2 : ℚ) ≤ (a : ℚ) / 100 + 1 := by
      have : (100 : ℚ) ≤ (a : ℚ) := by exact_mod_cast h100
      linarith
    unfold round_trip_american
    rw [hd]
    show decimal_to_american ((a : ℚ) / 100 + 1) = some a
    unfold decimal_to_american
    rw [if_pos h2]
    congr 1
    apply ratTrunc_eq_of_eq_intCast
    ring
  · have hno : ¬ (0 < a) := by omega
    have hz : ¬ (a = 0) := by omega
    have hcast : (a : ℚ) < 0 := by exact_mod_cast (by omega : a < 0)
    have habs : |(a : ℚ)| = -(a : ℚ) := abs_of_neg hcast
    have hbig : (101 : ℚ) ≤ -(a : ℚ) := by
      have : (a : ℚ) ≤ -101 := by exact_mod_cast hneg
      linarith
    have h0 : (0 : ℚ) < -(a : ℚ) := by linarith
    have hd : american_to_decimal a = some (100 / -(a : ℚ) + 1) := by
      simp only [american_to_decimal, if_neg hno, if_neg hz, habs]
    unfold round_trip_american
    rw [hd]
    show decimal_to_american (100 / -(a : ℚ) + 1) = some a
    have hlt2 : ¬ ((2 : ℚ) ≤ 100 / -(a : ℚ) + 1) := by
      rw [not_le]
      have : 100 / -(a : ℚ) < 1 := by
        rw [div_lt_one h0]
        linarith
      linarith
    have hne1 : ¬ (100 / -(a : ℚ) + 1 = 1) := by
      have : (0 : ℚ) < 100 / -(a : ℚ) := by positivity
      intro hcontra
      linarith
    unfold decimal_to_american
    rw [if_neg hlt2, if_neg hne1]
    congr 1
    apply ratTrunc_eq_of_eq_intCast
    have hne0 : -(a : ℚ) ≠ 0 := ne_of_gt h0
    field_simp

theorem C2_roundtrip_witness :
    ((100 : Int) ≤ 150 ∨ (150 : Int) ≤ -101) ∧ round_trip_american 150 = some 150 :=
  ⟨Or.inl (by decide), C2_roundtrip_exact 150 (Or.inl (by decide))⟩

/-- C2 fails as stated: at `a = 50` (which satisfies `|a| ≥ 1`, `a ≠ 0`) the
round trip gives `-200`, which is 250 away from `a`, far outside the claimed
±1 tolerance. -/
theorem C2_counterexample :
    round_trip_american 50 = some (-200) ∧ (1 : Int) < |(-200 : Int) - 50| := by
  constructor
  · have hd : american_to_decimal 50 = some (3/2) := by
      norm_num [american_to_decimal]
    unfold round_trip_american
    rw [hd]
    show decimal_to_american (3/2) = some (-200)
    have hlt2 : ¬ ((2 : ℚ) ≤ 3/2) := by norm_num
    have hne1 : ¬ ((3 : ℚ)/2 = 1) := by norm_num
    unfold decimal_to_american
    rw [if_neg hlt2, if_neg hne1]
    congr 1
    apply ratTrunc_eq_of_eq_intCast
    norm_num
  · decide

/-- C5: for every `p ∈ [0,1]`, nonzero odds and non-negative bankroll, the
Kelly stake is never negative and never exceeds a quarter of the bankroll. -/
theorem C5_kelly_bounds (p : ℚ) (a : Int) (bankroll : ℚ)
    (hp0 : 0 ≤ p) (hp1 : p ≤ 1) (ha : a ≠ 0) (hb : 0 ≤ bankroll) :
    0 ≤ calculate_kelly_criterion p a bankroll ∧
      calculate_kelly_criterion p a bankroll ≤ (1/4) * bankroll := by
  unfold calculate_kelly_criterion
  cases hd : american_to_decimal a with
  | none =>
      constructor
      · exact le_refl 0
      · positivity
  | some d =>
      have h0 : 0 ≤ max (min (((d - 1) * p - (1 - p)) / (d - 1)) (1 / 4)) 0 :=
        le_max_right _ _
      have h4 : max (min (((d - 1) * p - (1 - p)) / (d - 1)) (1 / 4)) 0 ≤ 1 / 4 :=
        max_le (min_le_right _ _) (by norm_num)
      constructor
      · exact mul_nonneg hb h0
      · calc bankroll * max (min (((d - 1) * p - (1 - p)) / (d - 1)) (1 / 4)) 0
              ≤ bankroll * (1 / 4) := mul_le_mul_of_nonneg_left h4 hb
          _ = (1/4) * bankroll := mul_comm _ _

theorem C5_kelly_witness :
    0 ≤ calculate_kelly_criterion 1 100 1000 ∧
      calculate_kelly_criterion 1 100 1000 ≤ (1/4) * 1000 :=
  C5_kelly_bounds 1 100 1000 (by norm_num) (by norm_num) (by decide) (by norm_num)

theorem dropDup_sublist (seen : List String) (l : List GameRecord) :
    (dropDuplicatesByGameId seen l).Sublist l := by
  induction l generalizing seen with
  | nil => simp [dropDuplicatesByGameId]
  | cons r rs ih =>
      unfold dropDuplicatesByGameId
      by_cases h : r.game_id ∈ seen
      · rw [if_pos h]
        exact (ih seen).trans (List.sublist_cons_self r rs)
      · rw [if_neg h]
        exact (ih _).cons₂ r

theorem finset_insert_sdiff_of_not_mem {α : Type} [DecidableEq α]
    {t : Finset α} (s : Finset α) {a : α} (h : a ∉ t) :
    insert a s \ t = insert a (s \ t) := by
  ext x
  simp only [Finset.mem_insert, Finset.mem_sdiff]
  constructor
  · rintro ⟨hx | hx, hnt⟩
    · exact Or.inl hx
    · exact Or.inr ⟨hx, hnt⟩
  · rintro (rfl | ⟨hx, hnt⟩)
    · exact ⟨Or.inl rfl, h⟩
    · exact ⟨Or.inr hx, hnt⟩

theorem finset_card_insert_eq_card_erase_add_one {α : Type} [DecidableEq α]
    (s : Finset α) (b : α) : (insert b s).card = (s.erase b).card + 1 := by
  by_cases hb : b ∈ s
  · rw [Finset.insert_eq_self.mpr hb, Finset.card_erase_of_mem hb]
    have hpos : 0 < s.card := Finset.card_pos.mpr ⟨b, hb⟩
    omega
  · rw [Finset.card_insert_of_not_mem hb, Finset.erase_eq_of_not_mem hb]

theorem dropDup_length (seen : List String) (l : List GameRecord) :
    (dropDuplicatesByGameId seen l).length =
      ((l.map GameRecord.game_id).toFinset \ seen.toFinset).card := by
  induction l generalizing seen with
  | nil => simp [dropDuplicatesByGameId]
  | cons r rs ih =>
      unfold dropDuplicatesByGameId
      by_cases h : r.game_id ∈ seen
      · rw [if_pos h, ih seen]
        congr 1
        simp only [List.map_cons, List.toFinset_cons]
        rw [Finset.insert_sdiff_of_mem _ (List.mem_toFinset.mpr h)]
      · rw [if_neg h]
        simp only [List.length_cons, ih, List.map_cons, List.toFinset_cons]
        rw [finset_insert_sdiff_of_not_mem _ (by simpa using h),
          finset_card_insert_eq_card_erase_add_one, ← Finset.sdiff_insert]

theorem dropDup_ids_nodup (seen : List String) (l : List GameRecord) :
    (((dropDuplicatesByGameId seen l).map GameRecord.game_id).Nodup) ∧
      (∀ g ∈ (dropDuplicatesByGameId seen l).map GameRecord.game_id, g ∉ seen) := by
  induction l generalizing seen with
  | nil => simp [dropDuplicatesByGameId]
  | cons r rs ih =>
      unfold dropDuplicatesByGameId
      by_cases h : r.game_id ∈ seen
      · rw [if_pos h]
        exact ih seen
      · rw [if_neg h]
        obtain ⟨hnd, hdis⟩ := ih (r.game_id :: seen)
        refine ⟨?_, ?_⟩
        · simp only [List.map_cons, List.nodup_cons]
          refine ⟨fun hmem => ?_, hnd⟩
          exact (hdis _ hmem) (List.mem_cons_self _ _)
        · intro g hg
          simp only [List.map_cons, List.mem_cons] at hg
          rcases hg with rfl | hg
          · exact h
          · intro hgseen
            exact (hdis g hg) (List.mem_cons_of_mem _ hgseen)

theorem dropDup_ids_cover (seen : List String) (l : List GameRecord) :
    ∀ g ∈ l.map GameRecord.game_id, g ∉ seen →
      g ∈ (dropDuplicatesByGameId seen l).map GameRecord.game_id := by
  induction l generalizing seen with
  | nil => simp
  | cons r rs ih =>
      intro g hg hgseen
      simp only [List.map_cons, List.mem_cons] at hg
      unfold dropDuplicatesByGameId
      by_cases h : r.game_id ∈ seen
      · rw [if_pos h]
        rcases hg with rfl | hg
        · exact absurd h hgseen
        · exact ih seen g hg hgseen
      · rw [if_neg h]
        simp only [List.map_cons, List.mem_cons]
        rcases hg with rfl | hg
        · exact Or.inl rfl
        · by_cases hgr : g = r.game_id
          · exact Or.inl hgr
          · refine Or.inr (ih _ g hg ?_)
            intro hmem
            rcases List.mem_cons.mp hmem with h1 | h2
            · exact hgr h1
            · exact hgseen h2

theorem dropDup_keeps_first (seen : List String) (pre post : List GameRecord)
    (r : GameRecord) (hpre : r.game_id ∉ pre.map GameRecord.game_id)
    (hseen : r.game_id ∉ seen) :
    r ∈ dropDuplicatesByGameId seen (pre ++ r :: post) := by
  induction pre generalizing seen with
  | nil =>
      simp only [List.nil_append]
      unfold dropDuplicatesByGameId
      rw [if_neg hseen]
      exact List.mem_cons_self _ _
  | cons q qs ih =>
      simp only [List.map_cons, List.mem_cons] at hpre
      push_neg at hpre
      simp only [List.cons_append]
      unfold dropDuplicatesByGameId
      by_cases h : q.game_id ∈ seen
      · rw [if_pos h]
        exact ih seen (by simpa using hpre.2) hseen
      · rw [if_neg h]
        refine List.mem_cons_of_mem _ (ih _ (by simpa using hpre.2) ?_)
        intro hmem
        rcases List.mem_cons.mp hmem with h1 | h2
        · exact hpre.1 h1
        · exact hseen h2

/-- C9: `clean_data` removes every record missing `home_team`, `away_team`
or `date` and every record with a negative score, and always returns an
order-preserving (possibly empty) subcollection of its input — it is a total
function, so a batch never aborts. -/
theorem C9_clean_drops_invalid (l : List GameRecord) :
    (∀ r ∈ clean_data l,
        r.home_team ≠ none ∧ r.away_team ≠ none ∧ r.date ≠ none ∧
          0 ≤ r.home_score ∧ 0 ≤ r.away_score) ∧
      (clean_data l).Sublist l := by
  constructor
  · intro r hr
    have hv : validRow r = true := List.of_mem_filter hr
    simp only [validRow, Bool.and_eq_true, decide_eq_true_eq,
      Option.isSome_iff_ne_none] at hv
    exact ⟨hv.1.1.1.1, hv.1.1.1.2, hv.1.1.2, hv.1.2, hv.2⟩
  · exact (List.filter_sublist _).trans (dropDup_sublist [] l)

theorem C9_witness :
    (exDupSecondValid.home_team ≠ none ∧ exDupSecondValid.away_team ≠ none ∧
        exDupSecondValid.date ≠ none ∧ 0 ≤ exDupSecondValid.home_score ∧
        0 ≤ exDupSecondValid.away_score) ∧
      (clean_data [exDupSecondValid]).Sublist [exDupSecondValid] :=
  ⟨(C9_clean_drops_invalid [exDupSecondValid]).1 exDupSecondValid (by decide),
    (C9_clean_drops_invalid [exDupSecondValid]).2⟩

/-- C8 (amended): on a collection of *valid* records, `clean_data` is exactly
first-occurrence deduplication by `game_id`: it is order-preserving, keeps one
record per id, keeps every first occurrence, covers every id of the input, and
shrinks the length by exactly the number of duplicates.  (On records that are
invalid, `clean_data` additionally drops the invalid rows — see the
counterexample.) -/
theorem C8_dedup_keeps_first (l : List GameRecord)
    (hval : ∀ r ∈ l, validRow r = true) :
    clean_data l = dropDuplicatesByGameId [] l ∧
      (clean_data l).Sublist l ∧
      ((clean_data l).map GameRecord.game_id).Nodup ∧
      (∀ g ∈ l.map GameRecord.game_id, g ∈ (clean_data l).map GameRecord.game_id) ∧
      (∀ pre r post, l = pre ++ r :: post →
        r.game_id ∉ pre.map GameRecord.game_id → r ∈ clean_data l) ∧
      (clean_data l).length + numDuplicates l = l.length := by
  have heq : clean_data l = dropDuplicatesByGameId [] l := by
    unfold clean_data
    apply List.filter_eq_self.mpr
    intro r hr
    exact hval r ((dropDup_sublist [] l).mem hr)
  refine ⟨heq, ?_, ?_, ?_, ?_, ?_⟩
  · rw [heq]
    exact dropDup_sublist [] l
  · rw [heq]
    exact (dropDup_ids_nodup [] l).1
  · intro g hg
    rw [heq]
    exact dropDup_ids_cover [] l g hg (by simp)
  · intro pre r post hsplit hfirst
    rw [heq, hsplit]
    exact dropDup_keeps_first [] pre post r hfirst (by simp)
  · rw [heq, dropDup_length, numDuplicates]
    have hcard : (List.map GameRecord.game_id l).toFinset.card ≤ l.length := by
      calc (List.map GameRecord.game_id l).toFinset.card
          ≤ (List.map GameRecord.game_id l).length := List.toFinset_card_le _
        _ = l.length := List.length_map _ _
    simp only [List.toFinset_nil, Finset.sdiff_empty]
    omega

theorem C8_witness :
    (∀ r ∈ [exDupSecondValid, exDupThirdValid], validRow r = true) ∧
      (clean_data [exDupSecondValid, exDupThirdValid]).length +
          numDuplicates [exDupSecondValid, exDupThirdValid] =
        ([exDupSecondValid, exDupThirdValid] : List GameRecord).length :=
  ⟨by decide,
    (C8_dedup_keeps_first [exDupSecondValid, exDupThirdValid] (by decide)).2.2.2.2.2⟩

/-- C8 fails as stated: with a duplicate pair whose first occurrence is an
invalid record, `clean_data` keeps neither record (the first-encountered one
is *not* kept), and the length drops by 2 while there is only 1 duplicate. -/
theorem C8_counterexample :
    clean_data [exDupFirstInvalid, exDupSecondValid] = [] ∧
      numDuplicates [exDupFirstInvalid, exDupSecondValid] = 1 ∧
      ([exDupFirstInvalid, exDupSecondValid] : List GameRecord).length -
          (clean_data [exDupFirstInvalid, exDupSecondValid]).length = 2 := by
  refine ⟨by decide, ?_, by decide⟩
  decide

/-- C6: a game won by the home team counts as a loss in the away team's
aggregation and as a win in the home team's aggregation of the same
collection. -/
theorem C6_perspective_flip (l : List GameRecord) (g : GameRecord) (t h : String)
    (hg : g ∈ l) (hat : g.away_team = some t) (hht : g.home_team = some h)
    (hres : g.home_team_result = some "Win") :
    (∃ sa, aggregate_team_stats l t = some sa ∧ 1 ≤ sa.losses) ∧
      (∃ sh, aggregate_team_stats l h = some sh ∧ 1 ≤ sh.wins) := by
  have hmem_t : g ∈ team_games l t := by
    refine List.mem_filter.mpr ⟨hg, ?_⟩
    simp [hat]
  have hmem_h : g ∈ team_games l h := by
    refine List.mem_filter.mpr ⟨hg, ?_⟩
    simp [hht]
  constructor
  · have hne : ¬ (team_games l t).isEmpty := by
      simp only [List.isEmpty_iff]
      exact List.ne_nil_of_mem hmem_t
    refine ⟨_, by rw [aggregate_team_stats, if_neg hne], ?_⟩
    have hloss : lossRow t g = true := by
      simp [lossRow, hat, hres]
    have hmem : g ∈ (team_games l t).filter (lossRow t) :=
      List.mem_filter.mpr ⟨hmem_t, hloss⟩
    exact List.length_pos_of_mem hmem
  · have hne : ¬ (team_games l h).isEmpty := by
      simp only [List.isEmpty_iff]
      exact List.ne_nil_of_mem hmem_h
    refine ⟨_, by rw [aggregate_team_stats, if_neg hne], ?_⟩
    have hwin : winRow h g = true := by
      simp [winRow, hht, hres]
    have hmem : g ∈ (team_games l h).filter (winRow h) :=
      List.mem_filter.mpr ⟨hmem_h, hwin⟩
    exact List.length_pos_of_mem hmem

theorem C6_witness :
    (∃ sa, aggregate_team_stats [exHomeWinGame] "A" = some sa ∧ 1 ≤ sa.losses) ∧
      (∃ sh, aggregate_team_stats [exHomeWinGame] "H" = some sh ∧ 1 ≤ sh.wins) :=
  C6_perspective_flip [exHomeWinGame] exHomeWinGame "A" "H"
    (by decide) (by decide) (by decide) (by decide)

theorem pairwise_filter_of_all {α : Type} (p : α → Bool) (le : α → α → Bool)
    (l : List α) (hp : ∀ a b, p a = true → p b = true → le a b = true) :
    List.Pairwise (fun a b => le a b = true) (l.filter p) := by
  rw [List.pairwise_iff_forall_sublist]
  intro a b hsub
  have ha : a ∈ l.filter p := hsub.mem (List.mem_cons_self _ _)
  have hb : b ∈ l.filter p := hsub.mem (List.mem_cons_of_mem _ (List.mem_cons_self _ _))
  exact hp a b (List.of_mem_filter ha) (List.of_mem_filter hb)

/-- Stability of `mergeSort` expressed on equivalence classes of the sort key:
filtering a class of mutually-`le` elements commutes with sorting. -/
theorem mergeSort_filter_ties {α : Type} (le : α → α → Bool)
    (htrans : ∀ a b c, le a b = true → le b c = true → le a c = true)
    (htot : ∀ a b, (le a b || le b a) = true)
    (p : α → Bool) (hp : ∀ a b, p a = true → p b = true → le a b = true)
    (l : List α) : (l.mergeSort le).filter p = l.filter p := by
  have hidem : (l.filter p).filter p = l.filter p := by
    rw [List.filter_filter]
    simp
  have hsub : (l.filter p).Sublist (l.mergeSort le) :=
    List.sublist_mergeSort htrans htot
      (pairwise_filter_of_all p le l hp) (List.filter_sublist l)
  have hsub2 : (l.filter p).Sublist ((l.mergeSort le).filter p) := by
    have := hsub.filter p
    rwa [hidem] at this
  have hperm : ((l.mergeSort le).filter p).Perm (l.filter p) :=
    (List.mergeSort_perm l le).filter p
  exact (hsub2.eq_of_length hperm.length_eq.symm).symm

theorem evSortLE_trans (a b c : EVOpportunity)
    (h1 : evSortLE a b = true) (h2 : evSortLE b c = true) : evSortLE a c = true := by
  simp only [evSortLE, decide_eq_true_eq] at *
  exact le_trans h2 h1

theorem evSortLE_total (a b : EVOpportunity) : (evSortLE a b || evSortLE b a) = true := by
  simp only [evSortLE, Bool.or_eq_true, decide_eq_true_eq]
  exact le_total _ _

/-- C7: `find_positive_ev_bets` returns its collected opportunities sorted by
expected value descending; ties keep their original encounter order (any
equal-EV class appears in the output exactly as collected); and in the spec's
scenario the 0.60 @ -110 opportunity (EV% = 160/11 ≈ 14.5 ≥ 1) is emitted
above the lower-EV opportunity. -/
theorem C7_sorted_stable_scenario (predictions : List (String × Prediction))
    (odds_data : List OddsEntry) (min_ev : ℚ) :
    (find_positive_ev_bets predictions odds_data min_ev).Pairwise
        (fun x y => y.expected_value ≤ x.expected_value) ∧
      (∀ c : ℚ,
        (find_positive_ev_bets predictions odds_data min_ev).filter
            (fun o => decide (o.expected_value = c)) =
          (collect_positive_ev predictions odds_data min_ev).filter
            (fun o => decide (o.expected_value = c))) ∧
      find_positive_ev_bets exPreds exOddsEntries 1 = [exOppH, exOppK] ∧
      exOppH.expected_value = 160/11 ∧ (1 : ℚ) ≤ exOppH.expected_value ∧
      exOppK.expected_value < exOppH.expected_value := by
  refine ⟨?_, ?_, ?_, by norm_num [exOppH], by norm_num [exOppH], by norm_num [exOppH, exOppK]⟩
  · have := List.sorted_mergeSort evSortLE_trans evSortLE_total
      (collect_positive_ev predictions odds_data min_ev)
    refine this.imp ?_
    intro a b hab
    simpa [evSortLE] using hab
  · intro c
    exact mergeSort_filter_ties evSortLE evSortLE_trans evSortLE_total _
      (fun a b ha hb => by
        simp only [decide_eq_true_eq] at ha hb
        simp [evSortLE, ha, hb])
      (collect_positive_ev predictions odds_data min_ev)
  · have hH : get_team_probability exPredG1 "H" = 3/5 := by
      simp [get_team_probability, exPredG1]
    have hA : get_team_probability exPredG1 "A" = 2/5 := by
      simp [get_team_probability, exPredG1]
    have hK : get_team_probability exPredG2 "K" = 11/20 := by
      simp [get_team_probability, exPredG2]
    have hev1 : calculate_ev_percentage (3/5) (-110) = 160/11 := by
      norm_num [calculate_ev_percentage, calculate_expected_value, american_to_decimal]
    have hev2 : calculate_ev_percentage (2/5) (-110) = -260/11 := by
      norm_num [calculate_ev_percentage, calculate_expected_value, american_to_decimal]
    have hev3 : calculate_ev_percentage (11/20) (-110) = 5 := by
      norm_num [calculate_ev_percentage, calculate_expected_value, american_to_decimal]
    have hlook1 : lookupPred "g1" exPreds = some exPredG1 := by
      simp [lookupPred, exPreds]
    have hlook2 : lookupPred "g2" exPreds = some exPredG2 := by
      simp [lookupPred, exPreds]
    have hcol : collect_positive_ev exPreds exOddsEntries 1 = [exOppH, exOppK] := by
      simp only [collect_positive_ev, exOddsEntries, List.flatMap_cons,
        List.flatMap_nil, List.filterMap_cons, List.filterMap_nil,
        hlook1, hlook2, hH, hA, hK, hev1, hev2, hev3]
      norm_num [exOppH, exOppK]
    unfold find_positive_ev_bets
    rw [hcol]
    apply List.mergeSort_of_sorted
    refine List.Pairwise.cons ?_ (List.Pairwise.cons (fun b hb => nomatch hb) List.Pairwise.nil)
    intro b hb
    rcases List.mem_singleton.mp hb with rfl
    simp only [evSortLE, exOppH, exOppK, decide_eq_true_eq]
    norm_num

theorem dedupKeys_append_singleton (xs : List String) (seen : List String)
    (y : String) (hy : y ∉ xs) (hys : y ∉ seen) :
    dedupKeys seen (xs ++ [y]) = dedupKeys seen xs ++ [y] := by
  induction xs generalizing seen with
  | nil =>
      simp only [List.nil_append]
      unfold dedupKeys
      rw [if_neg hys]
      simp [dedupKeys]
  | cons x xs' ih =>
      simp only [List.mem_cons] at hy
      push_neg at hy
      simp only [List.cons_append]
      unfold dedupKeys
      by_cases h : x ∈ seen
      · rw [if_pos h, if_pos h]
        exact ih seen hy.2 hys
      · rw [if_neg h, if_neg h]
        rw [ih (x :: seen) hy.2 ?_]
        · simp
        · intro hmem
          rcases List.mem_cons.mp hmem with h1 | h2
          · exact hy.1 h1
          · exact hys h2

theorem dedupKeys_subset (seen : List String) (xs : List String) (g : String)
    (hg : g ∈ dedupKeys seen xs) : g ∈ xs := by
  induction xs generalizing seen with
  | nil => simpa [dedupKeys] using hg
  | cons x xs' ih =>
      unfold dedupKeys at hg
      by_cases h : x ∈ seen
      · rw [if_pos h] at hg
        exact List.mem_cons_of_mem _ (ih _ hg)
      · rw [if_neg h] at hg
        rcases List.mem_cons.mp hg with rfl | hg'
        · exact List.mem_cons_self _ _
        · exact List.mem_cons_of_mem _ (ih _ hg')

theorem filterMap_single {α β : Type} (f : α → Option β) (x : α) :
    List.filterMap f [x] = (f x).toList := by
  cases h : f x <;> simp [List.filterMap_cons, h]

theorem filterMap_congruent {α β : Type} (f g : α → Option β) :
    ∀ (l : List α), (∀ a ∈ l, f a = g a) → l.filterMap f = l.filterMap g := by
  intro l
  induction l with
  | nil => intro _; rfl
  | cons a as ih =>
      intro h
      simp only [List.filterMap_cons, h a (List.mem_cons_self _ _),
        ih (fun b hb => h b (List.mem_cons_of_mem _ hb))]

/-- C3 (amended): `findPositiveEV` processes records independently and never
aborts (its collection distributes over batch concatenation and the final
result is a permutation of the collection); `findArbitrage` processes games
independently: appending one (possibly malformed) entry for a fresh game id
changes exactly that game's contribution and leaves every other game's result
intact.  However a malformed quote inside a game suppresses that *whole
game's* arbitrage check, not just the one record — see the counterexample. -/
theorem C3_batch_isolation :
    (∀ (preds : List (String × Prediction)) (m : ℚ) (l₁ l₂ : List OddsEntry),
        collect_positive_ev preds (l₁ ++ l₂) m =
          collect_positive_ev preds l₁ m ++ collect_positive_ev preds l₂ m) ∧
      (∀ (preds : List (String × Prediction)) (odds : List OddsEntry) (m : ℚ),
        (find_positive_ev_bets preds odds m).Perm
          (collect_positive_ev preds odds m)) ∧
      (∀ (odds : List OddsEntry) (bad : OddsEntry),
        bad.id ∉ odds.map OddsEntry.id →
          calculate_arbitrage_opportunities (odds ++ [bad]) =
            calculate_arbitrage_opportunities odds ++
              (check_arbitrage_for_game bad.id [bad]).toList) := by
  refine ⟨?_, ?_, ?_⟩
  · intro preds m l₁ l₂
    unfold collect_positive_ev
    exact List.flatMap_append _ _ _
  · intro preds odds m
    exact List.mergeSort_perm _ _
  · intro odds bad hfresh
    have hids : game_ids (odds ++ [bad]) = game_ids odds ++ [bad.id] := by
      unfold game_ids
      rw [List.map_append]
      exact dedupKeys_append_singleton _ _ _ (by simpa using hfresh) (by simp)
    unfold calculate_arbitrage_opportunities
    rw [hids, List.filterMap_append]
    congr 1
    · apply filterMap_congruent
      intro g hg
      have hgmem : g ∈ odds.map OddsEntry.id := dedupKeys_subset _ _ _ hg
      have hne : ¬ (bad.id = g) := fun hgg => hfresh (hgg ▸ hgmem)
      have hq : game_quotes (odds ++ [bad]) g = game_quotes odds g := by
        unfold game_quotes
        rw [List.filter_append]
        have hnil : List.filter (fun e => decide (e.id = g)) [bad] = [] := by
          simp [hne]
        rw [hnil, List.append_nil]
      rw [hq]
    · rw [filterMap_single]
      have hq : game_quotes (odds ++ [bad]) bad.id = [bad] := by
        unfold game_quotes
        rw [List.filter_append]
        have h1 : List.filter (fun e => decide (e.id = bad.id)) odds = [] := by
          rw [List.filter_eq_nil_iff]
          intro e he
          simp only [decide_eq_true_eq]
          intro hcontra
          exact hfresh (hcontra ▸ List.mem_map_of_mem OddsEntry.id he)
        have h2 : List.filter (fun e => decide (e.id = bad.id)) [bad] = [bad] := by
          simp
        rw [h1, h2, List.nil_append]
      rw [hq]

theorem C3_witness :
    (exFreshEntry.id ∉ [exNoZeroEntry].map OddsEntry.id) ∧
      calculate_arbitrage_opportunities ([exNoZeroEntry] ++ [exFreshEntry]) =
        calculate_arbitrage_opportunities [exNoZeroEntry] ++
          (check_arbitrage_for_game exFreshEntry.id [exFreshEntry]).toList :=
  ⟨by decide, C3_batch_isolation.2.2 [exNoZeroEntry] exFreshEntry (by decide)⟩

/-- C3 fails as stated: one zero-odds outcome ("Z") makes
`_check_arbitrage_for_game` raise inside its implied-probability loop, and the
caught exception returns `None` for the whole game — the two healthy +150/+150
records of the same batch are discarded with it (removing the malformed record
yields the arbitrage opportunity). -/
theorem C3_counterexample :
    calculate_arbitrage_opportunities [exZeroEntry] = [] ∧
      calculate_arbitrage_opportunities [exNoZeroEntry] = [exNoZeroOpp] := by
  have him : implied_probability 150 = some (2/5) := by
    norm_num [implied_probability, american_to_decimal]
  have him0 : implied_probability 0 = none := by
    norm_num [implied_probability, american_to_decimal]
  constructor
  · simp [calculate_arbitrage_opportunities, game_ids, game_quotes, dedupKeys,
      exZeroEntry, check_arbitrage_for_game, best_odds, quotesTriples,
      bestOddsFold, upsertMax, impliedSum, him, him0]
  · simp [calculate_arbitrage_opportunities, game_ids, game_quotes,
      dedupKeys, exNoZeroEntry, check_arbitrage_for_game, best_odds,
      quotesTriples, bestOddsFold, upsertMax, impliedSum, him,
      List.filterMap_cons, exNoZeroOpp]
    norm_num

theorem american_to_decimal_isSome (a : Int) (ha : a ≠ 0) :
    ∃ d, american_to_decimal a = some d := by
  unfold american_to_decimal
  by_cases h : 0 < a
  · exact ⟨_, by rw [if_pos h]⟩
  · rw [if_neg h, if_neg ha]
    exact ⟨_, rfl⟩

theorem oddsAt_upsert_same (t bk : String) (o : Int) :
    ∀ acc : List (String × String × Int),
      oddsAt t (upsertMax acc t bk o) = maxStep (oddsAt t acc) o := by
  intro acc
  induction acc with
  | nil => simp [upsertMax, oddsAt, lookupBest, maxStep]
  | cons e rest ih =>
      unfold upsertMax
      by_cases h : e.1 = t
      · rw [if_pos h]
        by_cases h2 : e.2.2 < o
        · rw [if_pos h2]
          simp [oddsAt, lookupBest, maxStep, h, h2]
        · rw [if_neg h2]
          simp [oddsAt, lookupBest, maxStep, h, h2]
      · rw [if_neg h]
        simp only [oddsAt, lookupBest, if_neg h]
        simpa only [oddsAt] using ih

theorem oddsAt_upsert_other (t t' bk : String) (o : Int) (hne : t ≠ t') :
    ∀ acc : List (String × String × Int),
      oddsAt t (upsertMax acc t' bk o) = oddsAt t acc := by
  intro acc
  induction acc with
  | nil => simp [upsertMax, oddsAt, lookupBest, Ne.symm hne]
  | cons e rest ih =>
      unfold upsertMax
      by_cases h : e.1 = t'
      · rw [if_pos h]
        have he : ¬ (e.1 = t) := by
          rw [h]
          exact Ne.symm hne
        by_cases h2 : e.2.2 < o
        · rw [if_pos h2]
          simp [oddsAt, lookupBest, he, Ne.symm hne]
        · rw [if_neg h2]
      · rw [if_neg h]
        by_cases he : e.1 = t
        · simp [oddsAt, lookupBest, he]
        · simp only [oddsAt, lookupBest, if_neg he]
          simpa only [oddsAt] using ih

theorem oddsAt_bestOddsFold (ts : List (String × String × Int)) :
    ∀ (acc : List (String × String × Int)) (t : String),
      oddsAt t (bestOddsFold acc ts) =
        (pricesFor t ts).foldl maxStep (oddsAt t acc) := by
  induction ts with
  | nil =>
      intro acc t
      simp [bestOddsFold, pricesFor]
  | cons e rest ih =>
      intro acc t
      obtain ⟨t', bk', o'⟩ := e
      simp only [bestOddsFold]
      rw [ih]
      by_cases h : t = t'
      · subst h
        rw [oddsAt_upsert_same]
        simp [pricesFor, List.filter_cons]
      · rw [oddsAt_upsert_other _ _ _ _ h]
        simp [pricesFor, List.filter_cons, Ne.symm h]

theorem foldl_maxStep_some (ps : List Int) :
    ∀ c : Int, ∃ m, ps.foldl maxStep (some c) = some m ∧
      (m = c ∨ m ∈ ps) ∧ c ≤ m ∧ ∀ p ∈ ps, p ≤ m := by
  induction ps with
  | nil => exact fun c => ⟨c, rfl, Or.inl rfl, le_refl c, by simp⟩
  | cons p rest ih =>
      intro c
      have hstep : maxStep (some c) p = some (if c < p then p else c) := rfl
      obtain ⟨m, hm, hmem, hle, hall⟩ := ih (if c < p then p else c)
      refine ⟨m, ?_, ?_, ?_, ?_⟩
      · simpa [List.foldl_cons, hstep] using hm
      · rcases hmem with rfl | hmem
        · by_cases hc : c < p
          · exact Or.inr (by simp [hc])
          · exact Or.inl (by simp [hc])
        · exact Or.inr (List.mem_cons_of_mem _ hmem)
      · refine le_trans ?_ hle
        by_cases hc : c < p
        · simp only [if_pos hc]
          omega
        · simp [hc]
      · intro q hq
        rcases List.mem_cons.mp hq with rfl | hq'
        · refine le_trans ?_ hle
          by_cases hc : c < q
          · simp [hc]
          · simp only [if_neg hc]
            omega
        · exact hall q hq'

theorem foldl_maxStep_none (ps : List Int) (hne : ps ≠ []) :
    ∃ m, ps.foldl maxStep none = some m ∧ m ∈ ps ∧ ∀ p ∈ ps, p ≤ m := by
  cases ps with
  | nil => exact absurd rfl hne
  | cons p rest =>
      have hstep : maxStep none p = some p := rfl
      obtain ⟨m, hm, hmem, hle, hall⟩ := foldl_maxStep_some rest p
      refine ⟨m, by simpa [hstep] using hm, ?_, ?_⟩
      · rcases hmem with rfl | hmem
        · exact List.mem_cons_self _ _
        · exact List.mem_cons_of_mem _ hmem
      · intro q hq
        rcases List.mem_cons.mp hq with rfl | hq'
        · exact hle
        · exact hall q hq'

theorem keys_upsertMax (t bk : String) (o : Int) :
    ∀ acc : List (String × String × Int),
      (upsertMax acc t bk o).map (fun e => e.1) =
        if t ∈ acc.map (fun e => e.1) then acc.map (fun e => e.1)
        else acc.map (fun e => e.1) ++ [t] := by
  intro acc
  induction acc with
  | nil => simp [upsertMax]
  | cons e rest ih =>
      unfold upsertMax
      by_cases h : e.1 = t
      · rw [if_pos h]
        by_cases h2 : e.2.2 < o
        · rw [if_pos h2]
          simp [h]
        · rw [if_neg h2]
          simp [h]
      · rw [if_neg h]
        simp only [List.map_cons, ih]
        by_cases hmem : t ∈ rest.map (fun e => e.1)
        · rw [if_pos hmem, if_pos (List.mem_cons_of_mem _ hmem)]
        · rw [if_neg hmem, if_neg ?_]
          · simp
          · intro hcontra
            rcases List.mem_cons.mp hcontra with h1 | h2
            · exact h h1.symm
            · exact hmem h2

theorem nodupkeys_upsertMax (t bk : String) (o : Int)
    (acc : List (String × String × Int))
    (h : (acc.map (fun e => e.1)).Nodup) :
    ((upsertMax acc t bk o).map (fun e => e.1)).Nodup := by
  rw [keys_upsertMax]
  by_cases hmem : t ∈ acc.map (fun e => e.1)
  · rwa [if_pos hmem]
  · rw [if_neg hmem, List.nodup_append]
    refine ⟨h, List.nodup_singleton _, ?_⟩
    intro a ha hat
    rw [List.mem_singleton.mp hat] at ha
    exact hmem ha

theorem nodupkeys_bestOddsFold (ts : List (String × String × Int)) :
    ∀ acc, ((acc.map (fun e => e.1)).Nodup) →
      (((bestOddsFold acc ts).map (fun e => e.1)).Nodup) := by
  induction ts with
  | nil => intro acc h; exact h
  | cons e rest ih =>
      intro acc h
      obtain ⟨t, bk, o⟩ := e
      simp only [bestOddsFold]
      exact ih _ (nodupkeys_upsertMax t bk o acc h)

theorem lookupBest_of_mem (e : String × String × Int) :
    ∀ l : List (String × String × Int),
      (l.map (fun x => x.1)).Nodup → e ∈ l → lookupBest e.1 l = some e := by
  intro l
  induction l with
  | nil => intro _ he; cases he
  | cons a rest ih =>
      intro hnd he
      rcases List.mem_cons.mp he with rfl | he'
      · unfold lookupBest
        rw [if_pos rfl]
      · unfold lookupBest
        simp only [List.map_cons, List.nodup_cons] at hnd
        by_cases h : a.1 = e.1
        · exfalso
          refine hnd.1 ?_
          rw [h]
          exact List.mem_map_of_mem _ he'
        · rw [if_neg h]
          exact ih hnd.2 he'

theorem dedupKeys_congr (xs : List String) :
    ∀ s₁ s₂ : List String, (∀ x, x ∈ s₁ ↔ x ∈ s₂) →
      dedupKeys s₁ xs = dedupKeys s₂ xs := by
  induction xs with
  | nil => intro s₁ s₂ _; rfl
  | cons x xs' ih =>
      intro s₁ s₂ hiff
      unfold dedupKeys
      by_cases h : x ∈ s₁
      · rw [if_pos h, if_pos ((hiff x).mp h), ih s₁ s₂ hiff]
      · rw [if_neg h, if_neg (fun hc => h ((hiff x).mpr hc))]
        rw [ih (x :: s₁) (x :: s₂) ?_]
        intro y
        simp only [List.mem_cons]
        exact or_congr Iff.rfl (hiff y)

theorem dedupKeys_cons_of_mem (seen : List String) (x : String)
    (xs : List String) (h : x ∈ seen) :
    dedupKeys seen (x :: xs) = dedupKeys seen xs := by
  show (if x ∈ seen then dedupKeys seen xs else x :: dedupKeys (x :: seen) xs) =
    dedupKeys seen xs
  rw [if_pos h]

theorem dedupKeys_cons_of_not_mem (seen : List String) (x : String)
    (xs : List String) (h : x ∉ seen) :
    dedupKeys seen (x :: xs) = x :: dedupKeys (x :: seen) xs := by
  show (if x ∈ seen then dedupKeys seen xs else x :: dedupKeys (x :: seen) xs) =
    x :: dedupKeys (x :: seen) xs
  rw [if_neg h]

theorem keys_bestOddsFold (ts : List (String × String × Int)) :
    ∀ acc, (bestOddsFold acc ts).map (fun e => e.1) =
      acc.map (fun e => e.1) ++
        dedupKeys (acc.map (fun e => e.1)) (ts.map (fun e => e.1)) := by
  induction ts with
  | nil =>
      intro acc
      simp [bestOddsFold, dedupKeys]
  | cons e rest ih =>
      intro acc
      obtain ⟨t, bk, o⟩ := e
      simp only [bestOddsFold, List.map_cons]
      rw [ih, keys_upsertMax]
      by_cases hmem : t ∈ acc.map (fun e => e.1)
      · rw [if_pos hmem, dedupKeys_cons_of_mem _ _ _ hmem]
      · rw [if_neg hmem, dedupKeys_cons_of_not_mem _ _ _ hmem]
        rw [dedupKeys_congr (rest.map (fun e => e.1))
          (acc.map (fun e => e.1) ++ [t]) (t :: acc.map (fun e => e.1)) ?_]
        · simp
        · intro y
          simp only [List.mem_append, List.mem_cons, List.not_mem_nil, or_false]
          exact or_comm

theorem best_odds_is_max (qs : List OddsEntry) (t bk : String) (o : Int)
    (hmem : (t, bk, o) ∈ best_odds qs) :
    o ∈ pricesFor t (quotesTriples qs) ∧
      ∀ o' ∈ pricesFor t (quotesTriples qs), o' ≤ o := by
  have hnd : ((best_odds qs).map (fun e => e.1)).Nodup :=
    nodupkeys_bestOddsFold _ [] (by simp)
  have hlook : lookupBest t (best_odds qs) = some (t, bk, o) :=
    lookupBest_of_mem (t, bk, o) _ hnd hmem
  have hodds : oddsAt t (best_odds qs) = some o := by
    simp [oddsAt, hlook]
  rw [best_odds, oddsAt_bestOddsFold] at hodds
  simp only [oddsAt, lookupBest, Option.map_none'] at hodds
  have hne : pricesFor t (quotesTriples qs) ≠ [] := by
    intro hnil
    rw [hnil] at hodds
    cases hodds
  obtain ⟨m, hm, hmmem, hall⟩ := foldl_maxStep_none _ hne
  rw [hm] at hodds
  have hmo : m = o := Option.some.inj hodds
  subst hmo
  exact ⟨hmmem, hall⟩

theorem quotesTriples_price_nonzero (qs : List OddsEntry)
    (h : ∀ e ∈ qs, ∀ bk ∈ e.bookmakers, ∀ mk ∈ bk.markets,
        ∀ oc ∈ mk.outcomes, oc.price ≠ 0) :
    ∀ tr ∈ quotesTriples qs, tr.2.2 ≠ 0 := by
  intro tr htr
  unfold quotesTriples at htr
  simp only [List.mem_flatMap] at htr
  obtain ⟨e, he, bk, hbk, mk, hmk, htr⟩ := htr
  by_cases hkey : mk.key = "h2h"
  · rw [if_pos hkey] at htr
    simp only [List.mem_map] at htr
    obtain ⟨oc, hoc, rfl⟩ := htr
    exact h e he bk hbk mk hmk oc hoc
  · rw [if_neg hkey] at htr
    cases htr

theorem pricesFor_subset_triples (t : String)
    (ts : List (String × String × Int)) (o : Int)
    (ho : o ∈ pricesFor t ts) : ∃ tr ∈ ts, tr.2.2 = o := by
  unfold pricesFor at ho
  simp only [List.mem_map] at ho
  obtain ⟨tr, htr, rfl⟩ := ho
  exact ⟨tr, List.mem_of_mem_filter htr, rfl⟩

theorem impliedSum_isSome (l : List (String × String × Int))
    (h : ∀ e ∈ l, e.2.2 ≠ 0) : ∃ s, impliedSum l = some s := by
  induction l with
  | nil => exact ⟨0, rfl⟩
  | cons e rest ih =>
      obtain ⟨d, hd⟩ := american_to_decimal_isSome e.2.2 (h e (List.mem_cons_self _ _))
      obtain ⟨s, hs⟩ := ih (fun x hx => h x (List.mem_cons_of_mem _ hx))
      refine ⟨1/d + s, ?_⟩
      simp [impliedSum, implied_probability, hd, hs]

theorem check_arbitrage_char (g : String) (qs : List OddsEntry)
    (opp : ArbitrageOpportunity)
    (hopp : check_arbitrage_for_game g qs = some opp) :
    opp.game_id = g ∧
      ∃ s, impliedSum (best_odds qs) = some s ∧ s < 1 ∧
        2 ≤ (best_odds qs).length ∧ opp.profit_margin = (1 - s) * 100 ∧
        opp.total_implied_probability = s ∧ opp.best_odds_set = best_odds qs := by
  unfold check_arbitrage_for_game at hopp
  by_cases hlen : 2 ≤ (best_odds qs).length
  · rw [if_pos hlen] at hopp
    cases hs : impliedSum (best_odds qs) with
    | none =>
        simp only [hs] at hopp
        cases hopp
    | some total =>
        simp only [hs] at hopp
        by_cases hlt : total < 1
        · rw [if_pos hlt] at hopp
          have heq := Option.some.inj hopp
          exact ⟨by rw [← heq], total, rfl, hlt, hlen, by rw [← heq],
            by rw [← heq], by rw [← heq]⟩
        · rw [if_neg hlt] at hopp
          cases hopp
  · rw [if_neg hlen] at hopp
    cases hopp

theorem check_arbitrage_isSome_iff (g : String) (qs : List OddsEntry) (s : ℚ)
    (hs : impliedSum (best_odds qs) = some s) :
    (check_arbitrage_for_game g qs).isSome ↔
      (2 ≤ (best_odds qs).length ∧ s < 1) := by
  unfold check_arbitrage_for_game
  by_cases hlen : 2 ≤ (best_odds qs).length
  · rw [if_pos hlen]
    simp only [hs]
    by_cases hlt : s < 1
    · simp [hlt, hlen]
    · simp [hlt, hlen]
  · rw [if_neg hlen]
    simp [hlen]

/-- C4: with every quote actually priced (nonzero odds — odds 0 is an
invalid input per the spec), the arbitrage scan is per game exactly: emit iff
at least two distinct outcomes are priced (the best-odds set has one entry per
distinct outcome name, holding the maximum quoted price for that outcome) and
the total implied probability of the best-odds set is strictly below 1, with
profit margin (1 - total) × 100; in the spec's +150/+130 vs +140/+150 scenario
one opportunity with profit margin exactly 20 is emitted. -/
theorem C4_arbitrage_scan (odds_data : List OddsEntry)
    (h : ∀ e ∈ odds_data, ∀ bk ∈ e.bookmakers, ∀ mk ∈ bk.markets,
        ∀ oc ∈ mk.outcomes, oc.price ≠ 0) :
    (∀ g ∈ game_ids odds_data,
      ∃ s, impliedSum (best_odds (game_quotes odds_data g)) = some s ∧
        ((check_arbitrage_for_game g (game_quotes odds_data g)).isSome ↔
          2 ≤ (best_odds (game_quotes odds_data g)).length ∧ s < 1) ∧
        ((∃ opp ∈ calculate_arbitrage_opportunities odds_data, opp.game_id = g) ↔
          (check_arbitrage_for_game g (game_quotes odds_data g)).isSome) ∧
        (∀ opp, check_arbitrage_for_game g (game_quotes odds_data g) = some opp →
          opp.profit_margin = (1 - s) * 100 ∧
            opp.total_implied_probability = s ∧
            opp.best_odds_set = best_odds (game_quotes odds_data g))) ∧
      (∀ g t bk o, (t, bk, o) ∈ best_odds (game_quotes odds_data g) →
        o ∈ pricesFor t (quotesTriples (game_quotes odds_data g)) ∧
          ∀ o' ∈ pricesFor t (quotesTriples (game_quotes odds_data g)), o' ≤ o) ∧
      (∀ g, (best_odds (game_quotes odds_data g)).map (fun e => e.1) =
        dedupKeys [] ((quotesTriples (game_quotes odds_data g)).map (fun e => e.1))) ∧
      calculate_arbitrage_opportunities [exArbEntry1, exArbEntry2] = [exArbOpp] := by
  have hq : ∀ g, ∀ e ∈ game_quotes odds_data g, ∀ bk ∈ e.bookmakers,
      ∀ mk ∈ bk.markets, ∀ oc ∈ mk.outcomes, oc.price ≠ 0 := by
    intro g e he
    exact h e (List.mem_of_mem_filter he)
  have hbestnz : ∀ g, ∀ e ∈ best_odds (game_quotes odds_data g), e.2.2 ≠ 0 := by
    intro g e he
    obtain ⟨t, bk, o⟩ := e
    obtain ⟨hp, _⟩ := best_odds_is_max _ _ _ _ he
    obtain ⟨tr, htr, hto⟩ := pricesFor_subset_triples _ _ _ hp
    have := quotesTriples_price_nonzero _ (hq g) tr htr
    simpa [hto] using this
  refine ⟨?_, ?_, ?_, ?_⟩
  · intro g hg
    obtain ⟨s, hs⟩ := impliedSum_isSome _ (hbestnz g)
    refine ⟨s, hs, check_arbitrage_isSome_iff g _ s hs, ?_, ?_⟩
    · constructor
      · rintro ⟨opp, hoppmem, hoppid⟩
        unfold calculate_arbitrage_opportunities at hoppmem
        rw [List.mem_filterMap] at hoppmem
        obtain ⟨g', hg', hcheck⟩ := hoppmem
        have hid := (check_arbitrage_char g' _ opp hcheck).1
        rw [hid] at hoppid
        subst hoppid
        rw [hcheck]
        rfl
      · intro hsome
        rw [Option.isSome_iff_exists] at hsome
        obtain ⟨opp, hopp⟩ := hsome
        refine ⟨opp, ?_, (check_arbitrage_char g _ opp hopp).1⟩
        unfold calculate_arbitrage_opportunities
        rw [List.mem_filterMap]
        exact ⟨g, hg, hopp⟩
    · intro opp hopp
      obtain ⟨_, s', hs', _, _, hm, ht, hb⟩ := check_arbitrage_char g _ opp hopp
      have hss : s' = s := by
        rw [hs] at hs'
        exact (Option.some.inj hs').symm
      subst hss
      exact ⟨hm, ht, hb⟩
  · intro g t bk o hmem
    exact best_odds_is_max _ _ _ _ hmem
  · intro g
    have := keys_bestOddsFold (quotesTriples (game_quotes odds_data g)) []
    simpa [best_odds] using this
  · have him : implied_probability 150 = some (2/5) := by
      norm_num [implied_probability, american_to_decimal]
    simp [calculate_arbitrage_opportunities, game_ids, game_quotes, dedupKeys,
      exArbEntry1, exArbEntry2, check_arbitrage_for_game, best_odds,
      quotesTriples, bestOddsFold, upsertMax, impliedSum, him,
      List.filterMap_cons, exArbOpp]
    norm_num

theorem C4_witness :
    (∀ e ∈ [exArbEntry1, exArbEntry2], ∀ bk ∈ e.bookmakers,
        ∀ mk ∈ bk.markets, ∀ oc ∈ mk.outcomes, oc.price ≠ 0) ∧
      calculate_arbitrage_opportunities [exArbEntry1, exArbEntry2] = [exArbOpp] :=
  ⟨by decide, (C4_arbitrage_scan [exArbEntry1, exArbEntry2] (by decide)).2.2.2⟩
